import Mathlib

/-!
Verification development for the fold-change computation engine of `foldch.py`
(qPCR ΔΔCt analysis).  The embedding models:

* float64 cell values as `FV` (`nan` or a real number), since the only NaN
  source in the pipeline is the sample standard deviation of a singleton group
  (`pandas.Series.std` with `ddof = 1`);
* input Cq values as rationals (finite decimals), cast to `ℝ` where the code
  performs `sqrt` / `2 ** x` / `log2`;
* the pandas pipeline of `foldch` as an `Except`-based computation that mirrors
  the source's column-at-a-time evaluation order, each fallible
  `groupby(...).get_group(...)` lookup returning a `missingGroup` error
  (Python: `KeyError`) when the group is absent;
* `re.match` as an abstract oracle `f : String → String → Bool`, since regular
  expression matching is performed by an external library;
* the two presentational text columns (`Fold CI 68`, `Log Fold CI 68`,
  formatted `"[lo, hi]"`) are output formatting and are not modelled.
-/

/-- A float64 cell value: either NaN or a real number. -/
inductive FV where
  | nan : FV
  | val (x : ℝ) : FV

noncomputable def FV.add : FV → FV → FV
  | .val a, .val b => .val (a + b)
  | _, _ => .nan

noncomputable def FV.sub : FV → FV → FV
  | .val a, .val b => .val (a - b)
  | _, _ => .nan

noncomputable def FV.mul : FV → FV → FV
  | .val a, .val b => .val (a * b)
  | _, _ => .nan

noncomputable def FV.neg : FV → FV
  | .val a => .val (-a)
  | .nan => .nan

/-- `np.sqrt`; Cq standard deviations are never negative, and NaN propagates. -/
noncomputable def FV.sqrt : FV → FV
  | .val a => .val (Real.sqrt a)
  | .nan => .nan

/-- `2 ** x` with a float exponent (`Real.rpow`); NaN propagates. -/
noncomputable def FV.exp2 : FV → FV
  | .val a => .val ((2 : ℝ) ^ a)
  | .nan => .nan

open Classical in
/-- `np.log2`; in the pipeline it is only applied to values of the form
`2 ** x` (strictly positive) or NaN, so nonpositive arguments (−inf/NaN in
NumPy) are collapsed to `nan`. -/
noncomputable def FV.log2 : FV → FV
  | .val a => if 0 < a then .val (Real.logb 2 a) else .nan
  | .nan => .nan

def FV.toOption : FV → Option ℝ
  | .nan => none
  | .val x => some x

/-- `pandas.Series.mean` (with its default `skipna=True`): the mean of the
non-NaN entries, NaN when there are none. -/
noncomputable def FVmean (L : List FV) : FV :=
  let vs := L.filterMap FV.toOption
  if vs = [] then .nan else .val (vs.sum / (vs.length : ℝ))

/-- One row of the input table: `Sample`, `Target`, `Cq`. -/
structure Measurement where
  sample : String
  target : String
  cq : ℚ
deriving DecidableEq, Repr

/-- Errors of the pipeline: `emptyInput` models the `IndexError` of
`output_df.iloc[0]` on an empty table, `missingGroup` the `KeyError` of
`groupby(...).get_group(...)`, `invalidStrategy` the `ValueError` raised in
`main` for an unrecognized `--concat` argument. -/
inductive FoldchError where
  | emptyInput : FoldchError
  | missingGroup (sample target : String) : FoldchError
  | invalidStrategy (strategy : String) : FoldchError
deriving DecidableEq, Repr

/-- The notices printed by the reference-resolution loop when no rule matched. -/
inductive Notice where
  | noRefSample (sample dflt : String) : Notice
  | noRefTarget (sample dflt : String) : Notice
deriving DecidableEq, Repr

/-- `DataFrame.drop_duplicates`: keep the first occurrence of each element,
preserving order (`seen` accumulates the elements already kept). -/
def dedupAcc [DecidableEq α] (seen : List α) : List α → List α
  | [] => []
  | x :: xs => if x ∈ seen then dedupAcc seen xs else x :: dedupAcc (x :: seen) xs

/-- `input_df[['Sample', 'Target']].drop_duplicates()`. -/
def dedupPairs (input : List Measurement) : List (String × String) :=
  dedupAcc [] (input.map (fun m => (m.sample, m.target)))

/-- The distinct samples of the input, in first-occurrence order: the keys of
the `reference_samples` / `reference_targets` dicts. -/
def distinctSamples (input : List Measurement) : List String :=
  dedupAcc [] ((dedupPairs input).map Prod.fst)

/-- `condition.startswith('/') and condition.endswith('/')`: the first and the
last character are both `'/'`. -/
def slashDelimited (condition : String) : Bool :=
  decide (condition.data.head? = some '/')
    && decide (condition.data.getLast? = some '/')

/-- `condition[1:-1]`: the string without its first and last character. -/
def stripSlashes (condition : String) : String :=
  String.mk ((condition.data.drop 1).dropLast)

/-- `get_reference_condition` (foldch.py lines 97–106), with `f` standing for
`re.match` on the pattern between the slashes. -/
def get_reference_condition (f : String → String → Bool)
    : List (String × String) → String → Option String
  | [], _ => none
  | (condition, ref) :: rest, value =>
    if condition = "all" then some ref
    else if slashDelimited condition then
      if f (stripSlashes condition) value then some ref
      else get_reference_condition f rest value
    else if condition = value then some ref
    else get_reference_condition f rest value

/-- The `Sample` field of `output_df.iloc[0]` (dummy on empty input, where the
source raises instead). -/
def defaultSampleOf (input : List Measurement) : String :=
  ((dedupPairs input).headD ("", "")).1

/-- The `Target` field of `output_df.iloc[0]`. -/
def defaultTargetOf (input : List Measurement) : String :=
  ((dedupPairs input).headD ("", "")).2

/-- The resolved reference sample of a sample: first matching rule, with the
first-row fallback (foldch.py lines 120–125). -/
def refSampleOf (f : String → String → Bool) (rs : List (String × String))
    (input : List Measurement) (s : String) : String :=
  (get_reference_condition f rs s).getD (defaultSampleOf input)

/-- The resolved reference target of a sample (foldch.py lines 121–128). -/
def refTargetOf (f : String → String → Bool) (rt : List (String × String))
    (input : List Measurement) (s : String) : String :=
  (get_reference_condition f rt s).getD (defaultTargetOf input)

/-- The values of the `reference_samples` dict, in key (first-occurrence)
order. -/
def refSampleVals (f : String → String → Bool) (rs : List (String × String))
    (input : List Measurement) : List String :=
  (distinctSamples input).map (refSampleOf f rs input)

/-- The values of the `reference_targets` dict. -/
def refTargetVals (f : String → String → Bool) (rt : List (String × String))
    (input : List Measurement) : List String :=
  (distinctSamples input).map (refTargetOf f rt input)

/-- The notices printed by the resolution loop (foldch.py lines 118–128): one
per deduplicated row whose sample has no matching rule. -/
def notices (f : String → String → Bool) (rs rt : List (String × String))
    (input : List Measurement) : List Notice :=
  (dedupPairs input).flatMap (fun p =>
    (if (get_reference_condition f rs p.1).isNone
      then [Notice.noRefSample p.1 (defaultSampleOf input)] else [])
    ++ (if (get_reference_condition f rt p.1).isNone
      then [Notice.noRefTarget p.1 (defaultTargetOf input)] else []))

/-- The `reference_samples`/`reference_targets` dicts as an association list:
one entry per distinct sample. -/
def refAssignments (f : String → String → Bool) (rs rt : List (String × String))
    (input : List Measurement) : List (String × String × String) :=
  (distinctSamples input).map
    (fun s => (s, refSampleOf f rs input s, refTargetOf f rt input s))

/-- The `Cq` column of `df.groupby(['Sample', 'Target']).get_group((s, t))`. -/
def getGroup (input : List Measurement) (s t : String) : List ℚ :=
  (input.filter (fun m => decide (m.sample = s) && decide (m.target = t))).map
    Measurement.cq

/-- A group lookup, raising `KeyError` (here `missingGroup`) when absent. -/
def groupE (input : List Measurement) (s t : String)
    : Except FoldchError (List ℚ) :=
  if getGroup input s t = [] then .error (.missingGroup s t)
  else .ok (getGroup input s t)

/-- `Series.mean` of a non-NaN column. -/
def meanQ (xs : List ℚ) : ℚ := xs.sum / (xs.length : ℚ)

/-- The sample variance (Bessel's correction, `ddof = 1`). -/
def varQ (xs : List ℚ) : ℚ :=
  ((xs.map (fun x => (x - meanQ xs) ^ 2)).sum) / ((xs.length : ℚ) - 1)

/-- `Series.std`: NaN for fewer than two entries, else the sample standard
deviation. -/
noncomputable def stdFV (xs : List ℚ) : FV :=
  if xs.length < 2 then .nan else .val (Real.sqrt ((varQ xs : ℚ) : ℝ))

/-- Error-propagating map over a list, short-circuiting on the first error:
the evaluation order of a fallible `DataFrame.apply` column. -/
def mapME (g : α → Except ε β) : List α → Except ε (List β)
  | [] => .ok []
  | x :: xs =>
    match g x with
    | .error e => .error e
    | .ok y =>
      match mapME g xs with
      | .error e => .error e
      | .ok ys => .ok (y :: ys)

/-- One row of the output table (foldch.py lines 138–161; the two
presentational text columns are not modelled). -/
structure FoldRow where
  sample : String
  target : String
  refSample : String
  refTarget : String
  ctAvg : FV
  ctStd : FV
  ctAvgCtrl : FV
  ctStdCtrl : FV
  deltaCt : FV
  deltaCtStd : FV
  deltaCtAvgCtrlSample : FV
  deltaDeltaCt : FV
  fold : FV
  foldCI68Lower : FV
  foldCI68Upper : FV
  logFold : FV
  logFoldCI68Lower : FV
  logFoldCI68Upper : FV

/-- Assembles one output row from the per-column values, computing the derived
columns exactly as foldch.py lines 148–161. -/
noncomputable def mkRow (refS refT : String → String) (p : String × String)
    (ctAvg ctStd ctAvgCtrl ctStdCtrl deltaCt dcacs : FV) : FoldRow :=
  let deltaCtStd := ((ctStd.mul ctStd).add (ctStdCtrl.mul ctStdCtrl)).sqrt
  let ddct := deltaCt.sub dcacs
  let fold := FV.exp2 ddct.neg
  let foldLo := FV.exp2 (ddct.neg.sub deltaCtStd)
  let foldHi := FV.exp2 (ddct.neg.add deltaCtStd)
  { sample := p.1, target := p.2, refSample := refS p.1, refTarget := refT p.1
    ctAvg := ctAvg, ctStd := ctStd, ctAvgCtrl := ctAvgCtrl
    ctStdCtrl := ctStdCtrl, deltaCt := deltaCt, deltaCtStd := deltaCtStd
    deltaCtAvgCtrlSample := dcacs, deltaDeltaCt := ddct, fold := fold
    foldCI68Lower := foldLo, foldCI68Upper := foldHi
    logFold := fold.log2, logFoldCI68Lower := foldLo.log2
    logFoldCI68Upper := foldHi.log2 }

/-- Zips the per-column value lists into output rows. -/
noncomputable def mkRows (refS refT : String → String)
    : List (String × String) → List FV → List FV → List FV → List FV
      → List FV → List FV → List FoldRow
  | p :: ps, a :: l1, b :: l2, c :: l3, d :: l4, e :: l5, g :: l6 =>
      mkRow refS refT p a b c d e g :: mkRows refS refT ps l1 l2 l3 l4 l5 l6
  | _, _, _, _, _, _, _ => []

/-- The sequential filter loop of foldch.py lines 164–165: for each resolved
reference-sample value, drop the rows whose `Sample` equals it. -/
def dropBySample (vals : List String) (rows : List FoldRow) : List FoldRow :=
  vals.foldl (fun acc v => acc.filter (fun r => !decide (r.sample = v))) rows

/-- The loop of foldch.py lines 166–167, dropping by `Target`. -/
def dropByTarget (vals : List String) (rows : List FoldRow) : List FoldRow :=
  vals.foldl (fun acc v => acc.filter (fun r => !decide (r.target = v))) rows

/-- The `Ct Avg` column (foldch.py line 142). -/
noncomputable def ctAvgStage (input : List Measurement)
    (pairs : List (String × String)) : Except FoldchError (List FV) :=
  mapME (fun p => (groupE input p.1 p.2).map
    (fun g => FV.val ((meanQ g : ℚ) : ℝ))) pairs

/-- The `Ct Std` column (line 143). -/
noncomputable def ctStdStage (input : List Measurement)
    (pairs : List (String × String)) : Except FoldchError (List FV) :=
  mapME (fun p => (groupE input p.1 p.2).map stdFV) pairs

/-- The `Ct Avg Ctrl` column (line 144): the group is keyed by the row's
sample and its resolved reference target. -/
noncomputable def ctrlAvgStage (input : List Measurement)
    (refT : String → String) (pairs : List (String × String))
    : Except FoldchError (List FV) :=
  mapME (fun p => (groupE input p.1 (refT p.1)).map
    (fun g => FV.val ((meanQ g : ℚ) : ℝ))) pairs

/-- The `Ct Std Ctrl` column (line 145). -/
noncomputable def ctrlStdStage (input : List Measurement)
    (refT : String → String) (pairs : List (String × String))
    : Except FoldchError (List FV) :=
  mapME (fun p => (groupE input p.1 (refT p.1)).map stdFV) pairs

/-- The `Delta Ct Avg Ctrl Sample` column (line 151): a group lookup on the
intermediate output table (`table1`: its keys zipped with its `Delta Ct`
column), keyed by the row's resolved reference sample and its own target,
followed by `Series.mean`. -/
noncomputable def dcacsElem (refS : String → String)
    (table1 : List ((String × String) × FV)) (p : String × String)
    : Except FoldchError FV :=
  if ((table1.filter (fun q => decide (q.1 = (refS p.1, p.2)))).map
      Prod.snd).isEmpty
  then .error (.missingGroup (refS p.1) p.2)
  else .ok (FVmean ((table1.filter
    (fun q => decide (q.1 = (refS p.1, p.2)))).map Prod.snd))

noncomputable def dcacsStage (refS : String → String)
    (table1 : List ((String × String) × FV)) (pairs : List (String × String))
    : Except FoldchError (List FV) :=
  mapME (dcacsElem refS table1) pairs

/-- The body of `foldch` once the deduplicated table is known non-empty
(`ds`/`dt` are the fields of its first row, `pairs` its rows).  The stages
follow the source's column-at-a-time evaluation order. -/
noncomputable def foldchCore (f : String → String → Bool)
    (rs rt : List (String × String)) (input : List Measurement)
    (ds dt : String) (pairs : List (String × String))
    : Except FoldchError (List FoldRow) :=
  match ctAvgStage input pairs with
  | .error e => .error e
  | .ok ctAvgs =>
  match ctStdStage input pairs with
  | .error e => .error e
  | .ok ctStds =>
  match ctrlAvgStage input (fun s => (get_reference_condition f rt s).getD dt)
      pairs with
  | .error e => .error e
  | .ok ctrlAvgs =>
  match ctrlStdStage input (fun s => (get_reference_condition f rt s).getD dt)
      pairs with
  | .error e => .error e
  | .ok ctrlStds =>
  let deltaCts := List.zipWith FV.sub ctAvgs ctrlAvgs
  match dcacsStage (fun s => (get_reference_condition f rs s).getD ds)
      (pairs.zip deltaCts) pairs with
  | .error e => .error e
  | .ok dcacs =>
  let rows := mkRows (fun s => (get_reference_condition f rs s).getD ds)
    (fun s => (get_reference_condition f rt s).getD dt)
    pairs ctAvgs ctStds ctrlAvgs ctrlStds deltaCts dcacs
  let sKeys := dedupAcc [] (pairs.map Prod.fst)
  .ok (dropByTarget
    (sKeys.map (fun s => (get_reference_condition f rt s).getD dt))
    (dropBySample
      (sKeys.map (fun s => (get_reference_condition f rs s).getD ds)) rows))

/-- `foldch` (foldch.py lines 108–169). -/
noncomputable def foldch (f : String → String → Bool)
    (rs rt : List (String × String)) (input : List Measurement)
    : Except FoldchError (List FoldRow) :=
  match dedupPairs input with
  | [] => .error .emptyInput
  | first :: rest => foldchCore f rs rt input first.1 first.2 (first :: rest)

/-- `main`'s aggregation step (foldch.py lines 175–180): `input` concatenates
the sources first, `output` runs the pipeline per source and concatenates the
results, anything else raises `ValueError`. -/
noncomputable def runAggregate (f : String → String → Bool)
    (rs rt : List (String × String)) (strategy : String)
    (files : List (List Measurement)) : Except FoldchError (List FoldRow) :=
  if strategy = "input" then foldch f rs rt files.flatten
  else if strategy = "output" then (mapME (foldch f rs rt) files).map List.flatten
  else .error (.invalidStrategy strategy)

/-- The `Ct Avg` value of a row, as a pure function of the input. -/
noncomputable def ctAvgF (input : List Measurement) (p : String × String) : FV :=
  FV.val ((meanQ (getGroup input p.1 p.2) : ℚ) : ℝ)

/-- The `Ct Std` value of a row. -/
noncomputable def ctStdF (input : List Measurement) (p : String × String) : FV :=
  stdFV (getGroup input p.1 p.2)

/-- The `Ct Avg Ctrl` value of a row. -/
noncomputable def ctrlAvgF (f : String → String → Bool)
    (rt : List (String × String)) (input : List Measurement)
    (p : String × String) : FV :=
  FV.val ((meanQ (getGroup input p.1 (refTargetOf f rt input p.1)) : ℚ) : ℝ)

/-- The `Ct Std Ctrl` value of a row. -/
noncomputable def ctrlStdF (f : String → String → Bool)
    (rt : List (String × String)) (input : List Measurement)
    (p : String × String) : FV :=
  stdFV (getGroup input p.1 (refTargetOf f rt input p.1))

/-- The `Delta Ct` value of a row. -/
noncomputable def deltaCtF (f : String → String → Bool)
    (rt : List (String × String)) (input : List Measurement)
    (p : String × String) : FV :=
  FV.sub (ctAvgF input p) (ctrlAvgF f rt input p)

/-- The `Delta Ct Avg Ctrl Sample` value of a row: the mean of `Delta Ct` over
the rows of the (pre-filter) deduplicated table keyed
`(referenceSample(sample), target)`. -/
noncomputable def dcacsF (f : String → String → Bool)
    (rs rt : List (String × String)) (input : List Measurement)
    (p : String × String) : FV :=
  FVmean (((dedupPairs input).filter
    (fun q => decide (q = (refSampleOf f rs input p.1, p.2)))).map
      (deltaCtF f rt input))

/-- The full output row of a deduplicated `(sample, target)` pair, as a pure
function of the input. -/
noncomputable def rowFun (f : String → String → Bool)
    (rs rt : List (String × String)) (input : List Measurement)
    (p : String × String) : FoldRow :=
  mkRow (refSampleOf f rs input) (refTargetOf f rt input) p
    (ctAvgF input p) (ctStdF input p) (ctrlAvgF f rt input p)
    (ctrlStdF f rt input p) (deltaCtF f rt input p) (dcacsF f rs rt input p)

/-- The rows of the final table: one per deduplicated pair, minus those whose
sample (resp. target) is some sample's resolved reference sample (resp.
target). -/
noncomputable def keptRows (f : String → String → Bool)
    (rs rt : List (String × String)) (input : List Measurement)
    : List FoldRow :=
  (((dedupPairs input).map (rowFun f rs rt input)).filter
      (fun r => !decide (r.sample ∈ refSampleVals f rs input))).filter
    (fun r => !decide (r.target ∈ refTargetVals f rt input))

/-- The `(sample, target)` keys of the final table. -/
def keptPairs (f : String → String → Bool) (rs rt : List (String × String))
    (input : List Measurement) : List (String × String) :=
  (((dedupPairs input).filter
      (fun p => !decide (p.1 ∈ refSampleVals f rs input))).filter
    (fun p => !decide (p.2 ∈ refTargetVals f rt input)))

/-! ### Basic lemmas about deduplication, groups and `mapME` -/

theorem mem_dedupAcc [DecidableEq α] (l : List α) (seen : List α) (x : α) :
    x ∈ dedupAcc seen l ↔ x ∈ l ∧ x ∉ seen := by
  induction l generalizing seen with
  | nil => simp [dedupAcc]
  | cons y ys ih =>
    by_cases hy : y ∈ seen
    · rw [dedupAcc, if_pos hy, ih]
      constructor
      · rintro ⟨hx, hs⟩; exact ⟨List.mem_cons_of_mem _ hx, hs⟩
      · rintro ⟨hx, hs⟩
        rcases List.mem_cons.mp hx with rfl | hx
        · exact absurd hy hs
        · exact ⟨hx, hs⟩
    · rw [dedupAcc, if_neg hy]
      by_cases hxy : x = y
      · subst hxy
        simp [hy]
      · rw [List.mem_cons]
        constructor
        · rintro (rfl | hx)
          · exact absurd rfl hxy
          · rw [ih] at hx
            refine ⟨List.mem_cons_of_mem _ hx.1, ?_⟩
            intro hs
            exact hx.2 (List.mem_cons_of_mem _ hs)
        · rintro ⟨hx, hs⟩
          rcases List.mem_cons.mp hx with rfl | hx
          · exact absurd rfl hxy
          · refine Or.inr ?_
            rw [ih]
            refine ⟨hx, ?_⟩
            intro hmem
            rcases List.mem_cons.mp hmem with rfl | h'
            · exact hxy rfl
            · exact hs h'

theorem nodup_dedupAcc [DecidableEq α] (l : List α) (seen : List α) :
    (dedupAcc seen l).Nodup := by
  induction l generalizing seen with
  | nil => simp [dedupAcc]
  | cons y ys ih =>
    by_cases hy : y ∈ seen
    · rw [dedupAcc, if_pos hy]; exact ih _
    · rw [dedupAcc, if_neg hy, List.nodup_cons]
      refine ⟨?_, ih _⟩
      intro hmem
      exact ((mem_dedupAcc _ _ _).mp hmem).2 (List.mem_cons_self _ _)

theorem mem_dedupPairs (input : List Measurement) (p : String × String) :
    p ∈ dedupPairs input ↔ ∃ m ∈ input, (m.sample, m.target) = p := by
  rw [dedupPairs, mem_dedupAcc]
  simp [List.mem_map]

theorem nodup_dedupPairs (input : List Measurement) :
    (dedupPairs input).Nodup := nodup_dedupAcc _ _

theorem nodup_distinctSamples (input : List Measurement) :
    (distinctSamples input).Nodup := nodup_dedupAcc _ _

theorem mem_distinctSamples (input : List Measurement) (s : String) :
    s ∈ distinctSamples input ↔ ∃ t, (s, t) ∈ dedupPairs input := by
  rw [distinctSamples, mem_dedupAcc]
  simp only [List.mem_map, List.not_mem_nil, not_false_iff, and_true]
  constructor
  · rintro ⟨p, hp, rfl⟩; exact ⟨p.2, hp⟩
  · rintro ⟨t, ht⟩; exact ⟨(s, t), ht, rfl⟩

theorem getGroup_ne_nil_iff (input : List Measurement) (s t : String) :
    getGroup input s t ≠ [] ↔ (s, t) ∈ dedupPairs input := by
  rw [mem_dedupPairs, getGroup, Ne, List.map_eq_nil_iff, List.filter_eq_nil_iff]
  push_neg
  constructor
  · rintro ⟨m, hm, hpred⟩
    simp only [Bool.and_eq_true, decide_eq_true_eq] at hpred
    exact ⟨m, hm, by rw [hpred.1, hpred.2]⟩
  · rintro ⟨m, hm, hp⟩
    refine ⟨m, hm, ?_⟩
    have h1 : m.sample = s := congrArg Prod.fst hp
    have h2 : m.target = t := congrArg Prod.snd hp
    simp [h1, h2]

theorem groupE_ok (input : List Measurement) (s t : String)
    (h : getGroup input s t ≠ []) :
    groupE input s t = .ok (getGroup input s t) := by
  rw [groupE, if_neg h]

theorem mapME_ok_of_forall {g : α → Except ε β} {h : α → β} :
    ∀ {l : List α}, (∀ x ∈ l, g x = .ok (h x)) → mapME g l = .ok (l.map h)
  | [], _ => rfl
  | x :: xs, hall => by
    rw [mapME, hall x (List.mem_cons_self _ _),
      mapME_ok_of_forall (fun y hy => hall y (List.mem_cons_of_mem _ hy))]
    rfl

theorem mapME_ok_unique {g : α → Except ε β} {h : α → β} {l : List α}
    {out : List β} (hok : mapME g l = .ok out)
    (hall : ∀ x ∈ l, g x = .ok (h x)) : out = l.map h := by
  rw [mapME_ok_of_forall hall] at hok
  exact (Except.ok.inj hok).symm

theorem mapME_ok_mem {g : α → Except ε β} :
    ∀ {l : List α} {out : List β}, mapME g l = .ok out →
      ∀ x ∈ l, ∃ y, g x = .ok y := by
  intro l
  induction l with
  | nil => intro out _ x hx; exact absurd hx (List.not_mem_nil x)
  | cons z zs ih =>
    intro out hok x hx
    rw [mapME] at hok
    rcases hgz : g z with e | y <;> rw [hgz] at hok
    · exact absurd hok (by simp)
    · rcases hrec : mapME g zs with e | ys <;> rw [hrec] at hok
      · exact absurd hok (by simp)
      · rcases List.mem_cons.mp hx with rfl | hx
        · exact ⟨y, hgz⟩
        · exact ih hrec x hx

theorem mapME_error_mem {g : α → Except ε β} :
    ∀ {l : List α} {e : ε}, mapME g l = .error e → ∃ x ∈ l, g x = .error e := by
  intro l
  induction l with
  | nil => intro e h; exact absurd h (by simp [mapME])
  | cons z zs ih =>
    intro e h
    rw [mapME] at h
    rcases hgz : g z with e' | y <;> rw [hgz] at h
    · refine ⟨z, List.mem_cons_self _ _, ?_⟩
      rw [hgz, Except.error.inj h]
    · rcases hrec : mapME g zs with e' | ys <;> rw [hrec] at h
      · obtain ⟨x, hx, hgx⟩ := ih (by rw [hrec, Except.error.inj h])
        exact ⟨x, List.mem_cons_of_mem _ hx, hgx⟩
      · exact absurd h (by simp)

theorem mapME_error_exists {g : α → Except ε β} :
    ∀ {l : List α}, (∃ x ∈ l, ∃ e, g x = .error e) →
      ∃ x ∈ l, ∃ e, g x = .error e ∧ mapME g l = .error e := by
  intro l
  induction l with
  | nil => rintro ⟨x, hx, _⟩; exact absurd hx (List.not_mem_nil x)
  | cons z zs ih =>
    rintro ⟨x, hx, e, hgx⟩
    rcases hgz : g z with e' | y
    · exact ⟨z, List.mem_cons_self _ _, e', hgz, by rw [mapME, hgz]⟩
    · have hxzs : x ∈ zs := by
        rcases List.mem_cons.mp hx with rfl | h'
        · rw [hgz] at hgx; exact absurd hgx (by simp)
        · exact h'
      obtain ⟨x', hx', e', hgx', hm⟩ := ih ⟨x, hxzs, e, hgx⟩
      exact ⟨x', List.mem_cons_of_mem _ hx', e', hgx', by rw [mapME, hgz, hm]⟩

theorem mapME_length {g : α → Except ε β} :
    ∀ {l : List α} {out : List β}, mapME g l = .ok out →
      out.length = l.length := by
  intro l
  induction l with
  | nil => intro out h; rw [mapME] at h; rw [← Except.ok.inj h]; rfl
  | cons z zs ih =>
    intro out h
    rw [mapME] at h
    rcases hgz : g z with e' | y <;> rw [hgz] at h
    · exact absurd h (by simp)
    · rcases hrec : mapME g zs with e' | ys <;> rw [hrec] at h
      · exact absurd h (by simp)
      · rw [← Except.ok.inj h]
        simpa using ih hrec

/-! ### Shape lemmas for the pipeline stages -/

theorem zipWith_map_same (f : β → β → γ) (g h : α → β) (l : List α) :
    List.zipWith f (l.map g) (l.map h) = l.map (fun x => f (g x) (h x)) := by
  induction l with
  | nil => rfl
  | cons x xs ih => simp [ih]

theorem zip_map_filter_key [DecidableEq α] (l : List α) (g : α → β) (k : α) :
    ((l.zip (l.map g)).filter (fun q => decide (q.1 = k))).map Prod.snd
      = (l.filter (fun p => decide (p = k))).map g := by
  induction l with
  | nil => rfl
  | cons x xs ih =>
    by_cases hx : x = k
    · simp only [List.map_cons, List.zip_cons_cons, List.filter_cons]
      rw [if_pos (by simp [hx]), if_pos (by simp [hx])]
      simp [ih]
    · simp only [List.map_cons, List.zip_cons_cons, List.filter_cons]
      rw [if_neg (by simp [hx]), if_neg (by simp [hx])]
      exact ih

theorem filter_key_eq_nil_iff [DecidableEq α] (l : List α) (k : α) :
    l.filter (fun p => decide (p = k)) = [] ↔ k ∉ l := by
  rw [List.filter_eq_nil_iff]
  constructor
  · intro h hk
    exact (by simpa using h k hk)
  · intro hk x hx
    simp only [decide_eq_true_eq]
    rintro rfl
    exact hk hx

theorem mkRows_map (refS refT : String → String) (l : List (String × String))
    (g1 g2 g3 g4 g5 g6 : (String × String) → FV) :
    mkRows refS refT l (l.map g1) (l.map g2) (l.map g3) (l.map g4) (l.map g5)
        (l.map g6)
      = l.map (fun p =>
          mkRow refS refT p (g1 p) (g2 p) (g3 p) (g4 p) (g5 p) (g6 p)) := by
  induction l with
  | nil => rfl
  | cons p ps ih => simp [mkRows, ih]

theorem dropBySample_eq (vals : List String) (rows : List FoldRow) :
    dropBySample vals rows
      = rows.filter (fun r => !decide (r.sample ∈ vals)) := by
  induction vals generalizing rows with
  | nil => simp [dropBySample]
  | cons v vs ih =>
    rw [dropBySample, List.foldl_cons]
    rw [show (List.foldl (fun acc v =>
        acc.filter (fun r => !decide (r.sample = v))) (rows.filter
          (fun r => !decide (r.sample = v))) vs)
      = dropBySample vs (rows.filter (fun r => !decide (r.sample = v)))
        from rfl]
    rw [ih, List.filter_filter]
    refine List.filter_congr ?_
    intro r _
    by_cases h1 : r.sample = v <;> by_cases h2 : r.sample ∈ vs <;>
      simp [h1, h2]

theorem dropByTarget_eq (vals : List String) (rows : List FoldRow) :
    dropByTarget vals rows
      = rows.filter (fun r => !decide (r.target ∈ vals)) := by
  induction vals generalizing rows with
  | nil => simp [dropByTarget]
  | cons v vs ih =>
    rw [dropByTarget, List.foldl_cons]
    rw [show (List.foldl (fun acc v =>
        acc.filter (fun r => !decide (r.target = v))) (rows.filter
          (fun r => !decide (r.target = v))) vs)
      = dropByTarget vs (rows.filter (fun r => !decide (r.target = v)))
        from rfl]
    rw [ih, List.filter_filter]
    refine List.filter_congr ?_
    intro r _
    by_cases h1 : r.target = v <;> by_cases h2 : r.target ∈ vs <;>
      simp [h1, h2]

/-! ### Lemmas about `FV` arithmetic -/

theorem FV.nan_mul (x : FV) : FV.mul .nan x = .nan := by cases x <;> rfl

theorem FV.mul_nan (x : FV) : FV.mul x .nan = .nan := by cases x <;> rfl

theorem FV.nan_add (x : FV) : FV.add .nan x = .nan := by cases x <;> rfl

theorem FV.add_nan (x : FV) : FV.add x .nan = .nan := by cases x <;> rfl

theorem FV.nan_sub (x : FV) : FV.sub .nan x = .nan := by cases x <;> rfl

theorem FV.sub_nan (x : FV) : FV.sub x .nan = .nan := by cases x <;> rfl

theorem FV.exp2_ne_nan_of_val (x : ℝ) : FV.exp2 (.val x) ≠ .nan := by
  rw [FV.exp2]
  exact fun h => FV.noConfusion h

/-- `2 ** log2 (2 ** z)` equals `2 ** z` for every cell value, NaN included. -/
theorem FV.exp2_log2_exp2 (z : FV) : FV.exp2 (FV.log2 (FV.exp2 z)) = FV.exp2 z := by
  cases z with
  | nan => rfl
  | val x =>
    have hp : (0 : ℝ) < (2 : ℝ) ^ x := Real.rpow_pos_of_pos (by norm_num) x
    rw [FV.exp2, FV.log2, if_pos hp, FV.exp2]
    rw [Real.rpow_logb (by norm_num) (by norm_num) hp]

/-! ### Success and failure of the individual column stages -/

theorem getGroup_of_mem_dedup {input : List Measurement} {p : String × String}
    (hp : p ∈ dedupPairs input) : getGroup input p.1 p.2 ≠ [] :=
  (getGroup_ne_nil_iff input p.1 p.2).mpr (by simpa using hp)

theorem ctAvgStage_ok (input : List Measurement)
    (pairs : List (String × String))
    (h : ∀ p ∈ pairs, getGroup input p.1 p.2 ≠ []) :
    ctAvgStage input pairs = .ok (pairs.map (ctAvgF input)) := by
  apply mapME_ok_of_forall
  intro p hp
  rw [groupE_ok _ _ _ (h p hp)]
  rfl

theorem ctStdStage_ok (input : List Measurement)
    (pairs : List (String × String))
    (h : ∀ p ∈ pairs, getGroup input p.1 p.2 ≠ []) :
    ctStdStage input pairs = .ok (pairs.map (ctStdF input)) := by
  apply mapME_ok_of_forall
  intro p hp
  rw [groupE_ok _ _ _ (h p hp)]
  rfl

theorem ctrlAvgStage_ok (input : List Measurement) (refT : String → String)
    (pairs : List (String × String))
    (h : ∀ p ∈ pairs, getGroup input p.1 (refT p.1) ≠ []) :
    ctrlAvgStage input refT pairs
      = .ok (pairs.map (fun p =>
          FV.val ((meanQ (getGroup input p.1 (refT p.1)) : ℚ) : ℝ))) := by
  apply mapME_ok_of_forall
  intro p hp
  rw [groupE_ok _ _ _ (h p hp)]
  rfl

theorem ctrlStdStage_ok (input : List Measurement) (refT : String → String)
    (pairs : List (String × String))
    (h : ∀ p ∈ pairs, getGroup input p.1 (refT p.1) ≠ []) :
    ctrlStdStage input refT pairs
      = .ok (pairs.map (fun p => stdFV (getGroup input p.1 (refT p.1)))) := by
  apply mapME_ok_of_forall
  intro p hp
  rw [groupE_ok _ _ _ (h p hp)]
  rfl


theorem groupE_error (input : List Measurement) (s t : String)
    (h : getGroup input s t = []) :
    groupE input s t = .error (.missingGroup s t) := by
  rw [groupE, if_pos h]

theorem ctrlAvgStage_error (input : List Measurement) (refT : String → String)
    (pairs : List (String × String))
    (h : ∃ p ∈ pairs, getGroup input p.1 (refT p.1) = []) :
    ∃ p ∈ pairs, getGroup input p.1 (refT p.1) = [] ∧
      ctrlAvgStage input refT pairs
        = .error (.missingGroup p.1 (refT p.1)) := by
  obtain ⟨p0, hp0, hempty⟩ := h
  obtain ⟨x, hx, e, hgx, hm⟩ := mapME_error_exists
    (g := fun p => (groupE input p.1 (refT p.1)).map
      (fun g => FV.val ((meanQ g : ℚ) : ℝ)))
    ⟨p0, hp0, FoldchError.missingGroup p0.1 (refT p0.1), by
      show (groupE input p0.1 (refT p0.1)).map _ = _
      rw [groupE_error _ _ _ hempty]
      rfl⟩
  have hgx' : (groupE input x.1 (refT x.1)).map
      (fun g => FV.val ((meanQ g : ℚ) : ℝ)) = Except.error e := hgx
  by_cases hxe : getGroup input x.1 (refT x.1) = []
  · rw [groupE_error _ _ _ hxe] at hgx'
    simp only [Except.map] at hgx'
    have he : FoldchError.missingGroup x.1 (refT x.1) = e :=
      Except.error.inj hgx'
    refine ⟨x, hx, hxe, ?_⟩
    rw [he]
    exact hm
  · rw [groupE_ok _ _ _ hxe] at hgx'
    simp only [Except.map] at hgx'
    exact Except.noConfusion hgx'
theorem dcacsStage_ok (refS : String → String)
    (pairs : List (String × String)) (dlt : String × String → FV)
    (h : ∀ p ∈ pairs, (refS p.1, p.2) ∈ pairs) :
    dcacsStage refS (pairs.zip (pairs.map dlt)) pairs
      = .ok (pairs.map (fun p =>
          FVmean ((pairs.filter
            (fun q => decide (q = (refS p.1, p.2)))).map dlt))) := by
  apply mapME_ok_of_forall
  intro p hp
  have hg := zip_map_filter_key pairs dlt (refS p.1, p.2)
  have hne : pairs.filter (fun q => decide (q = (refS p.1, p.2))) ≠ [] :=
    fun hnil => (filter_key_eq_nil_iff _ _).mp hnil (h p hp)
  have hne' : ((pairs.zip (pairs.map dlt)).filter
      (fun q => decide (q.1 = (refS p.1, p.2)))).map Prod.snd ≠ [] := by
    rw [hg]
    simpa using hne
  rw [dcacsElem, if_neg (by simpa using hne'), hg]


theorem dcacsStage_error (refS : String → String)
    (pairs : List (String × String)) (dlt : String × String → FV)
    (h : ∃ p ∈ pairs, (refS p.1, p.2) ∉ pairs) :
    ∃ p ∈ pairs, (refS p.1, p.2) ∉ pairs ∧
      dcacsStage refS (pairs.zip (pairs.map dlt)) pairs
        = .error (.missingGroup (refS p.1) p.2) := by
  obtain ⟨p0, hp0, hmiss⟩ := h
  have hfail0 : ∀ (p : String × String), (refS p.1, p.2) ∉ pairs →
      dcacsElem refS (pairs.zip (pairs.map dlt)) p
        = .error (.missingGroup (refS p.1) p.2) := by
    intro p hp
    have hnil : pairs.filter (fun q => decide (q = (refS p.1, p.2))) = [] :=
      (filter_key_eq_nil_iff _ _).mpr hp
    rw [dcacsElem, if_pos (by rw [zip_map_filter_key, hnil]; rfl)]
  obtain ⟨x, hx, e, hgx, hm⟩ := mapME_error_exists
    ⟨p0, hp0, FoldchError.missingGroup (refS p0.1) p0.2, hfail0 p0 hmiss⟩
  by_cases hxm : (refS x.1, x.2) ∈ pairs
  · exfalso
    have hne : pairs.filter (fun q => decide (q = (refS x.1, x.2))) ≠ [] :=
      fun hnil => (filter_key_eq_nil_iff _ _).mp hnil hxm
    rw [dcacsElem,
      if_neg (by rw [zip_map_filter_key]; simpa using hne)] at hgx
    exact Except.noConfusion hgx
  · rw [hfail0 x hxm] at hgx
    have he : FoldchError.missingGroup (refS x.1) x.2 = e :=
      Except.error.inj hgx
    refine ⟨x, hx, hxm, ?_⟩
    rw [he]
    exact hm

/-! ### The pipeline as a whole -/

theorem foldch_eq_core {f : String → String → Bool}
    {rs rt : List (String × String)} {input : List Measurement}
    {first : String × String} {rest : List (String × String)}
    (h : dedupPairs input = first :: rest) :
    foldch f rs rt input
      = foldchCore f rs rt input first.1 first.2 (first :: rest) := by
  unfold foldch
  rw [h]

theorem refS_pointwise {f : String → String → Bool}
    {rs : List (String × String)} {input : List Measurement}
    {first : String × String} {rest : List (String × String)}
    (h : dedupPairs input = first :: rest) (s : String) :
    (get_reference_condition f rs s).getD first.1 = refSampleOf f rs input s := by
  rw [refSampleOf, defaultSampleOf, h]
  rfl

theorem refT_pointwise {f : String → String → Bool}
    {rt : List (String × String)} {input : List Measurement}
    {first : String × String} {rest : List (String × String)}
    (h : dedupPairs input = first :: rest) (s : String) :
    (get_reference_condition f rt s).getD first.2 = refTargetOf f rt input s := by
  rw [refTargetOf, defaultTargetOf, h]
  rfl

theorem foldchCore_ok (f : String → String → Bool)
    (rs rt : List (String × String)) (input : List Measurement)
    {first : String × String} {rest : List (String × String)}
    (h : dedupPairs input = first :: rest)
    (hc : ∀ p ∈ dedupPairs input,
      getGroup input p.1 (refTargetOf f rt input p.1) ≠ [])
    (hd : ∀ p ∈ dedupPairs input,
      (refSampleOf f rs input p.1, p.2) ∈ dedupPairs input) :
    foldchCore f rs rt input first.1 first.2 (first :: rest)
      = .ok (keptRows f rs rt input) := by
  have hmem : ∀ p ∈ (first :: rest), p ∈ dedupPairs input := by
    rw [h]; exact fun p hp => hp
  have h1 : ctAvgStage input (first :: rest)
      = .ok ((first :: rest).map (ctAvgF input)) :=
    ctAvgStage_ok _ _ (fun p hp => getGroup_of_mem_dedup (hmem p hp))
  have h2 : ctStdStage input (first :: rest)
      = .ok ((first :: rest).map (ctStdF input)) :=
    ctStdStage_ok _ _ (fun p hp => getGroup_of_mem_dedup (hmem p hp))
  have h3 : ctrlAvgStage input (refTargetOf f rt input) (first :: rest)
      = .ok ((first :: rest).map (ctrlAvgF f rt input)) :=
    ctrlAvgStage_ok _ _ _ (fun p hp => hc p (hmem p hp))
  have h4 : ctrlStdStage input (refTargetOf f rt input) (first :: rest)
      = .ok ((first :: rest).map (ctrlStdF f rt input)) :=
    ctrlStdStage_ok _ _ _ (fun p hp => hc p (hmem p hp))
  have h5 : dcacsStage (refSampleOf f rs input)
      ((first :: rest).zip ((first :: rest).map
        (fun x => FV.sub (ctAvgF input x) (ctrlAvgF f rt input x))))
      (first :: rest)
      = .ok ((first :: rest).map (dcacsF f rs rt input)) := by
    rw [dcacsStage_ok (refSampleOf f rs input) (first :: rest)
      (fun x => FV.sub (ctAvgF input x) (ctrlAvgF f rt input x))
      (fun p hp => h ▸ hd p (hmem p hp))]
    congr 1
    refine List.map_congr_left ?_
    intro p _
    rw [dcacsF, h]
    rfl
  simp only [foldchCore, refS_pointwise h, refT_pointwise h, h1, h2, h3, h4,
    zipWith_map_same, h5, mkRows_map, dropBySample_eq, dropByTarget_eq,
    keptRows, refSampleVals, refTargetVals, distinctSamples, rowFun, h]
  rfl

theorem foldch_ctrl_missing (f : String → String → Bool)
    (rs rt : List (String × String)) (input : List Measurement)
    (h : ∃ p ∈ dedupPairs input,
      getGroup input p.1 (refTargetOf f rt input p.1) = []) :
    ∃ s, foldch f rs rt input
        = .error (.missingGroup s (refTargetOf f rt input s)) ∧
      getGroup input s (refTargetOf f rt input s) = [] := by
  obtain ⟨p0, hp0, hempty⟩ := h
  obtain ⟨first, rest, hfr⟩ : ∃ a l, dedupPairs input = a :: l := by
    cases hdp : dedupPairs input with
    | nil => rw [hdp] at hp0; exact absurd hp0 (List.not_mem_nil _)
    | cons a l => exact ⟨a, l, rfl⟩
  rw [foldch_eq_core hfr]
  have hmem : ∀ p ∈ (first :: rest), p ∈ dedupPairs input := by
    rw [hfr]; exact fun p hp => hp
  have h1 := ctAvgStage_ok input (first :: rest)
    (fun p hp => getGroup_of_mem_dedup (hmem p hp))
  have h2 := ctStdStage_ok input (first :: rest)
    (fun p hp => getGroup_of_mem_dedup (hmem p hp))
  obtain ⟨x, hx, hxe, herr⟩ := ctrlAvgStage_error input
    (refTargetOf f rt input) (first :: rest) ⟨p0, hfr ▸ hp0, hempty⟩
  refine ⟨x.1, ?_, hxe⟩
  simp only [foldchCore, refS_pointwise hfr, refT_pointwise hfr, h1, h2, herr]

theorem foldch_dcacs_missing (f : String → String → Bool)
    (rs rt : List (String × String)) (input : List Measurement)
    (hc : ∀ p ∈ dedupPairs input,
      getGroup input p.1 (refTargetOf f rt input p.1) ≠ [])
    (h : ∃ p ∈ dedupPairs input,
      (refSampleOf f rs input p.1, p.2) ∉ dedupPairs input) :
    ∃ p ∈ dedupPairs input,
      foldch f rs rt input
          = .error (.missingGroup (refSampleOf f rs input p.1) p.2) ∧
        (refSampleOf f rs input p.1, p.2) ∉ dedupPairs input := by
  obtain ⟨p0, hp0, hmiss⟩ := h
  obtain ⟨first, rest, hfr⟩ : ∃ a l, dedupPairs input = a :: l := by
    cases hdp : dedupPairs input with
    | nil => rw [hdp] at hp0; exact absurd hp0 (List.not_mem_nil _)
    | cons a l => exact ⟨a, l, rfl⟩
  have hmem : ∀ p ∈ (first :: rest), p ∈ dedupPairs input := by
    rw [hfr]; exact fun p hp => hp
  have h1 := ctAvgStage_ok input (first :: rest)
    (fun p hp => getGroup_of_mem_dedup (hmem p hp))
  have h2 := ctStdStage_ok input (first :: rest)
    (fun p hp => getGroup_of_mem_dedup (hmem p hp))
  have h3 : ctrlAvgStage input (refTargetOf f rt input) (first :: rest)
      = .ok ((first :: rest).map (ctrlAvgF f rt input)) :=
    ctrlAvgStage_ok _ _ _ (fun p hp => hc p (hmem p hp))
  have h4 : ctrlStdStage input (refTargetOf f rt input) (first :: rest)
      = .ok ((first :: rest).map (ctrlStdF f rt input)) :=
    ctrlStdStage_ok _ _ _ (fun p hp => hc p (hmem p hp))
  obtain ⟨x, hx, hxm, herr⟩ := dcacsStage_error (refSampleOf f rs input)
    (first :: rest) (fun x => FV.sub (ctAvgF input x) (ctrlAvgF f rt input x))
    ⟨p0, hfr ▸ hp0, by rw [← hfr]; exact hmiss⟩
  refine ⟨x, hmem x hx, ?_, by rw [hfr]; exact hxm⟩
  rw [foldch_eq_core hfr]
  simp only [foldchCore, refS_pointwise hfr, refT_pointwise hfr, h1, h2, h3,
    h4, zipWith_map_same, herr]

theorem groupE_map_error_shape {β : Type} {input : List Measurement}
    {s t : String} {fn : List ℚ → β} {e : FoldchError}
    (h : (groupE input s t).map fn = .error e) :
    e = .missingGroup s t := by
  rw [groupE] at h
  split at h
  · simp only [Except.map] at h
    exact (Except.error.inj h).symm
  · simp only [Except.map] at h
    exact Except.noConfusion h

theorem dcacsElem_error_shape {refS : String → String}
    {table1 : List ((String × String) × FV)} {x : String × String}
    {e : FoldchError} (h : dcacsElem refS table1 x = .error e) :
    e = .missingGroup (refS x.1) x.2 := by
  rw [dcacsElem] at h
  split at h
  · exact (Except.error.inj h).symm
  · exact Except.noConfusion h

theorem foldch_error_shape (f : String → String → Bool)
    (rs rt : List (String × String)) (input : List Measurement)
    (e : FoldchError) (hne : dedupPairs input ≠ [])
    (herr : foldch f rs rt input = .error e) :
    ∃ s t, e = .missingGroup s t := by
  obtain ⟨first, rest, hfr⟩ := List.exists_cons_of_ne_nil hne
  rw [foldch_eq_core hfr] at herr
  have hmem : ∀ p ∈ (first :: rest), p ∈ dedupPairs input := by
    rw [hfr]; exact fun p hp => hp
  have h1 := ctAvgStage_ok input (first :: rest)
    (fun p hp => getGroup_of_mem_dedup (hmem p hp))
  have h2 := ctStdStage_ok input (first :: rest)
    (fun p hp => getGroup_of_mem_dedup (hmem p hp))
  simp only [foldchCore, refS_pointwise hfr, refT_pointwise hfr, h1, h2]
    at herr
  rcases h3 : ctrlAvgStage input (refTargetOf f rt input) (first :: rest)
    with e3 | l3
  · simp only [h3] at herr
    obtain ⟨x, _, hgx⟩ := mapME_error_mem h3
    have hgx' : (groupE input x.1 (refTargetOf f rt input x.1)).map
        (fun g => FV.val ((meanQ g : ℚ) : ℝ)) = Except.error e3 := hgx
    exact ⟨x.1, refTargetOf f rt input x.1, by
      rw [Except.error.inj herr.symm, groupE_map_error_shape hgx']⟩
  · simp only [h3] at herr
    rcases h4 : ctrlStdStage input (refTargetOf f rt input) (first :: rest)
      with e4 | l4
    · simp only [h4] at herr
      obtain ⟨x, _, hgx⟩ := mapME_error_mem h4
      have hgx' : (groupE input x.1 (refTargetOf f rt input x.1)).map stdFV
          = Except.error e4 := hgx
      exact ⟨x.1, refTargetOf f rt input x.1, by
        rw [Except.error.inj herr.symm, groupE_map_error_shape hgx']⟩
    · simp only [h4] at herr
      rcases h5 : dcacsStage (refSampleOf f rs input)
          ((first :: rest).zip (List.zipWith FV.sub
            (List.map (ctAvgF input) (first :: rest)) l3)) (first :: rest)
        with e5 | l5
      · simp only [h5] at herr
        obtain ⟨x, _, hgx⟩ := mapME_error_mem h5
        exact ⟨refSampleOf f rs input x.1, x.2, by
          rw [Except.error.inj herr.symm, dcacsElem_error_shape hgx]⟩
      · simp only [h5] at herr
        exact Except.noConfusion herr

theorem foldch_ok_iff (f : String → String → Bool)
    (rs rt : List (String × String)) (input : List Measurement)
    (rows : List FoldRow) :
    foldch f rs rt input = .ok rows ↔
      dedupPairs input ≠ [] ∧
      (∀ p ∈ dedupPairs input,
        getGroup input p.1 (refTargetOf f rt input p.1) ≠ []) ∧
      (∀ p ∈ dedupPairs input,
        (refSampleOf f rs input p.1, p.2) ∈ dedupPairs input) ∧
      rows = keptRows f rs rt input := by
  constructor
  · intro hok
    have hne : dedupPairs input ≠ [] := by
      intro hnil
      unfold foldch at hok
      rw [hnil] at hok
      exact Except.noConfusion hok
    obtain ⟨first, rest, hfr⟩ := List.exists_cons_of_ne_nil hne
    have hc : ∀ p ∈ dedupPairs input,
        getGroup input p.1 (refTargetOf f rt input p.1) ≠ [] := by
      intro p hp hempty
      obtain ⟨s, heq, _⟩ := foldch_ctrl_missing f rs rt input ⟨p, hp, hempty⟩
      rw [heq] at hok
      exact Except.noConfusion hok
    have hd : ∀ p ∈ dedupPairs input,
        (refSampleOf f rs input p.1, p.2) ∈ dedupPairs input := by
      intro p hp
      by_contra hmiss
      obtain ⟨q, _, heq, _⟩ :=
        foldch_dcacs_missing f rs rt input hc ⟨p, hp, hmiss⟩
      rw [heq] at hok
      exact Except.noConfusion hok
    have hcore := foldchCore_ok f rs rt input hfr hc hd
    rw [foldch_eq_core hfr, hcore] at hok
    exact ⟨hne, hc, hd, (Except.ok.inj hok).symm⟩
  · rintro ⟨hne, hc, hd, rfl⟩
    obtain ⟨first, rest, hfr⟩ := List.exists_cons_of_ne_nil hne
    rw [foldch_eq_core hfr, foldchCore_ok f rs rt input hfr hc hd]

/-! ### Extraction of rows from a successful run -/

theorem mem_rows_rowFun {f : String → String → Bool}
    {rs rt : List (String × String)} {input : List Measurement}
    {rows : List FoldRow} {r : FoldRow}
    (hok : foldch f rs rt input = .ok rows) (hr : r ∈ rows) :
    ∃ p ∈ dedupPairs input, r = rowFun f rs rt input p := by
  obtain ⟨-, -, -, hrows⟩ := (foldch_ok_iff f rs rt input rows).mp hok
  rw [hrows, keptRows] at hr
  have hr1 := List.mem_of_mem_filter hr
  have hr2 := List.mem_of_mem_filter hr1
  obtain ⟨p, hp, hpr⟩ := List.mem_map.mp hr2
  exact ⟨p, hp, hpr.symm⟩

theorem find_kept_row {f : String → String → Bool}
    {rs rt : List (String × String)} {input : List Measurement}
    {rows : List FoldRow} {s t : String} {r : FoldRow}
    (hok : foldch f rs rt input = .ok rows)
    (hr : rows.find? (fun row => decide (row.sample = s)
      && decide (row.target = t)) = some r) :
    (s, t) ∈ dedupPairs input ∧ r = rowFun f rs rt input (s, t) := by
  have hmem := List.mem_of_find?_eq_some hr
  have hpred := List.find?_some hr
  obtain ⟨p, hp, hpr⟩ := mem_rows_rowFun hok hmem
  subst hpr
  simp only [Bool.and_eq_true, decide_eq_true_eq] at hpred
  have h1 : p.1 = s := hpred.1
  have h2 : p.2 = t := hpred.2
  have hps : p = (s, t) := by rw [← h1, ← h2]
  rw [hps] at hp ⊢
  exact ⟨hp, rfl⟩

theorem FVmean_vals {α : Type} (l : List α) (g : α → ℝ) (hne : l ≠ []) :
    ∃ y, FVmean (l.map (fun x => FV.val (g x))) = FV.val y := by
  have hfm : (l.map (fun x => FV.val (g x))).filterMap FV.toOption
      = l.map g := by
    rw [List.filterMap_map]
    have hcomp : (FV.toOption ∘ fun x => FV.val (g x))
        = fun x => some (g x) := by
      funext x
      rfl
    rw [hcomp, show (fun x => some (g x)) = some ∘ g from rfl,
      List.filterMap_eq_map]
  refine ⟨((l.map g).sum / ((l.map g).length : ℝ)), ?_⟩
  show (if ((l.map (fun x => FV.val (g x))).filterMap FV.toOption) = []
    then FV.nan
    else FV.val ((((l.map (fun x => FV.val (g x))).filterMap
        FV.toOption).sum)
      / ((((l.map (fun x => FV.val (g x))).filterMap FV.toOption)).length
        : ℝ))) = _
  rw [hfm, if_neg (by simpa using hne)]

/-! ### Claims -/

/-- Whether a rule condition matches a sample name: `all` is a wildcard,
`/.../` matches by regular expression (oracle `f`), anything else by exact
string equality. -/
def condMatches (f : String → String → Bool) (condition value : String)
    : Bool :=
  if condition = "all" then true
  else if slashDelimited condition then f (stripSlashes condition) value
  else decide (condition = value)

theorem grc_eq_find (f : String → String → Bool)
    (rules : List (String × String)) (value : String) :
    get_reference_condition f rules value
      = (rules.find? (fun cr => condMatches f cr.1 value)).map Prod.snd := by
  induction rules with
  | nil => rfl
  | cons cr rest ih =>
    obtain ⟨condition, ref⟩ := cr
    rw [get_reference_condition]
    by_cases h1 : condition = "all"
    · rw [if_pos h1, List.find?_cons_of_pos _ (by simp [condMatches, h1])]
      rfl
    · rw [if_neg h1]
      by_cases h2 : slashDelimited condition = true
      · rw [if_pos h2]
        by_cases h3 : f (stripSlashes condition) value = true
        · rw [if_pos h3,
            List.find?_cons_of_pos _ (by simp [condMatches, h1, h2, h3])]
          rfl
        · rw [if_neg h3, ih,
            List.find?_cons_of_neg _ (by simp [condMatches, h1, h2, h3])]
      · rw [if_neg h2]
        by_cases h4 : condition = value
        · rw [if_pos h4, List.find?_cons_of_pos _ (by
            rw [condMatches, if_neg h1, if_neg h2]
            exact decide_eq_true h4)]
          rfl
        · rw [if_neg h4, ih,
            List.find?_cons_of_neg _ (by simp [condMatches, h1, h2, h4])]

/-- C3: reference resolution scans the rule list in declaration order and
returns the reference value of the first rule whose condition matches the
sample name (`all` matching every name, `/.../` by the regex oracle, anything
else by string equality); in particular `[(all, X), (A, Y)]` resolves sample
`A` to `X`, not `Y`. -/
theorem C3_rule_order :
    (∀ (f : String → String → Bool) (rules : List (String × String))
      (value : String),
      get_reference_condition f rules value
        = (rules.find? (fun cr => condMatches f cr.1 value)).map Prod.snd)
    ∧ (∀ (f : String → String → Bool) (value : String),
      condMatches f "all" value = true)
    ∧ (∀ (f : String → String → Bool),
      get_reference_condition f [("all", "X"), ("A", "Y")] "A" = some "X") :=
  ⟨grc_eq_find,
   fun f value => by rw [condMatches, if_pos rfl],
   fun f => by rw [get_reference_condition, if_pos rfl]⟩

/-- A regex oracle for concrete scenarios without `/.../` rules. -/
def noRegex : String → String → Bool := fun _ _ => false

/-- C1 counterexample fixture: two samples that are each other's resolved
reference sample. -/
def inputCross : List Measurement :=
  [⟨"A", "T", 1⟩, ⟨"A", "H", 1⟩, ⟨"B", "T", 1⟩, ⟨"B", "H", 1⟩]

def rulesCrossS : List (String × String) := [("A", "B"), ("B", "A")]

def rulesAllH : List (String × String) := [("all", "H")]

/-- C1 (as stated) is false: with samples `A`, `B`, sample rules
`A ↦ B, B ↦ A` and reference target `H` for everyone, the pair `(A, T)` is a
deduplicated pair, `A`'s resolved reference sample is `B ≠ A`, `B`'s is
`A ≠ B`, and `T ≠ H` is no sample's reference target — yet the final table is
empty: neither `(A, T)` nor `B`'s rows are kept, because the filter drops
every row whose sample is the reference sample of *any* sample. -/
theorem C1_counterexample :
    foldch noRegex rulesCrossS rulesAllH inputCross = .ok []
    ∧ ("A", "T") ∈ dedupPairs inputCross
    ∧ ("B", "T") ∈ dedupPairs inputCross
    ∧ refSampleOf noRegex rulesCrossS inputCross "A" = "B"
    ∧ refSampleOf noRegex rulesCrossS inputCross "B" = "A"
    ∧ refTargetOf noRegex rulesAllH inputCross "A" = "H"
    ∧ refTargetOf noRegex rulesAllH inputCross "B" = "H"
    ∧ ("A" : String) ≠ "B" ∧ ("B" : String) ≠ "A" ∧ ("T" : String) ≠ "H" :=
  ⟨rfl, by decide, by decide, rfl, rfl, rfl, rfl,
   by decide, by decide, by decide⟩

/-- C1 amended: the final table holds exactly one row per deduplicated
`(sample, target)` pair, excluding exactly those pairs whose sample appears as
the resolved reference sample of *some* sample of the table, or whose target
appears as the resolved reference target of some sample (not merely the
self-referencing pairs). -/
theorem C1_output_pairs (f : String → String → Bool)
    (rs rt : List (String × String)) (input : List Measurement)
    (rows : List FoldRow) (hok : foldch f rs rt input = .ok rows) :
    rows.map (fun r => (r.sample, r.target)) = keptPairs f rs rt input
    ∧ (keptPairs f rs rt input).Nodup := by
  obtain ⟨-, -, -, hrows⟩ := (foldch_ok_iff f rs rt input rows).mp hok
  subst hrows
  constructor
  · rw [keptRows, keptPairs, List.filter_map, List.filter_map, List.map_map,
      show ((fun (r : FoldRow) => (r.sample, r.target))
          ∘ rowFun f rs rt input) = id from funext fun p => rfl,
      List.map_id]
    rfl
  · exact ((nodup_dedupPairs input).filter _).filter _

def rulesAllA : List (String × String) := [("all", "A")]

/-- The concrete scenario of the spec: two samples, a target and a reference
target, two replicates per group. -/
def inputScenario : List Measurement :=
  [⟨"A", "T", 20⟩, ⟨"A", "T", 21⟩, ⟨"A", "H", 25⟩, ⟨"A", "H", 25⟩,
   ⟨"B", "T", 22⟩, ⟨"B", "T", 22⟩, ⟨"B", "H", 25⟩, ⟨"B", "H", 26⟩]

noncomputable def scenarioRows : List FoldRow :=
  (foldch noRegex rulesAllA rulesAllH inputScenario).toOption.getD []

theorem C1_output_pairs_witness :
    foldch noRegex rulesAllA rulesAllH inputScenario = .ok scenarioRows
    ∧ (scenarioRows.map (fun r => (r.sample, r.target))
        = keptPairs noRegex rulesAllA rulesAllH inputScenario
      ∧ (keptPairs noRegex rulesAllA rulesAllH inputScenario).Nodup) :=
  ⟨rfl, C1_output_pairs noRegex rulesAllA rulesAllH inputScenario
    scenarioRows rfl⟩

/-- C2: every row of a successful run satisfies the ΔΔCt derivation of the
spec: the four group statistics, `deltaCt = ctAvg − ctAvgCtrl`,
`deltaCtStd = sqrt(ctStd² + ctStdCtrl²)` (no reference-sample variability
term), `deltaCtAvgCtrlSample` the mean of `deltaCt` over the deduplicated
rows keyed `(referenceSample(sample), target)`,
`deltaDeltaCt = deltaCt − deltaCtAvgCtrlSample`, `fold = 2^(−deltaDeltaCt)`,
and the CI bounds `2^(−deltaDeltaCt ∓ deltaCtStd)`. -/
theorem C2_formulas (f : String → String → Bool)
    (rs rt : List (String × String)) (input : List Measurement)
    (rows : List FoldRow) (s t : String) (r : FoldRow)
    (hok : foldch f rs rt input = .ok rows)
    (hr : rows.find? (fun row => decide (row.sample = s)
      && decide (row.target = t)) = some r) :
    r.ctAvg = FV.val ((meanQ (getGroup input s t) : ℚ) : ℝ)
    ∧ r.ctStd = stdFV (getGroup input s t)
    ∧ r.ctAvgCtrl = FV.val
        ((meanQ (getGroup input s (refTargetOf f rt input s)) : ℚ) : ℝ)
    ∧ r.ctStdCtrl = stdFV (getGroup input s (refTargetOf f rt input s))
    ∧ r.deltaCt = FV.sub r.ctAvg r.ctAvgCtrl
    ∧ r.deltaCtStd = FV.sqrt (FV.add (FV.mul r.ctStd r.ctStd)
        (FV.mul r.ctStdCtrl r.ctStdCtrl))
    ∧ r.deltaCtAvgCtrlSample = FVmean (((dedupPairs input).filter
        (fun q => decide (q = (refSampleOf f rs input s, t)))).map
          (deltaCtF f rt input))
    ∧ r.deltaDeltaCt = FV.sub r.deltaCt r.deltaCtAvgCtrlSample
    ∧ r.fold = FV.exp2 (FV.neg r.deltaDeltaCt)
    ∧ r.foldCI68Lower = FV.exp2 (FV.sub (FV.neg r.deltaDeltaCt) r.deltaCtStd)
    ∧ r.foldCI68Upper = FV.exp2 (FV.add (FV.neg r.deltaDeltaCt) r.deltaCtStd)
    := by
  obtain ⟨hmem, hrw⟩ := find_kept_row hok hr
  subst hrw
  exact ⟨rfl, rfl, rfl, rfl, rfl, rfl, rfl, rfl, rfl, rfl, rfl⟩

noncomputable def scenarioRowBT : FoldRow :=
  (scenarioRows.find? (fun row => decide (row.sample = "B")
    && decide (row.target = "T"))).getD
      (rowFun noRegex rulesAllA rulesAllH inputScenario ("B", "T"))

theorem C2_formulas_witness :
    foldch noRegex rulesAllA rulesAllH inputScenario = .ok scenarioRows
    ∧ scenarioRows.find? (fun row => decide (row.sample = "B")
        && decide (row.target = "T")) = some scenarioRowBT
    ∧ (scenarioRowBT.ctAvg
        = FV.val ((meanQ (getGroup inputScenario "B" "T") : ℚ) : ℝ)
      ∧ scenarioRowBT.ctStd = stdFV (getGroup inputScenario "B" "T")
      ∧ scenarioRowBT.ctAvgCtrl = FV.val ((meanQ (getGroup inputScenario "B"
          (refTargetOf noRegex rulesAllH inputScenario "B")) : ℚ) : ℝ)
      ∧ scenarioRowBT.ctStdCtrl = stdFV (getGroup inputScenario "B"
          (refTargetOf noRegex rulesAllH inputScenario "B"))
      ∧ scenarioRowBT.deltaCt
        = FV.sub scenarioRowBT.ctAvg scenarioRowBT.ctAvgCtrl
      ∧ scenarioRowBT.deltaCtStd = FV.sqrt (FV.add
          (FV.mul scenarioRowBT.ctStd scenarioRowBT.ctStd)
          (FV.mul scenarioRowBT.ctStdCtrl scenarioRowBT.ctStdCtrl))
      ∧ scenarioRowBT.deltaCtAvgCtrlSample
        = FVmean (((dedupPairs inputScenario).filter
          (fun q => decide (q = (refSampleOf noRegex rulesAllA inputScenario
            "B", "T")))).map (deltaCtF noRegex rulesAllH inputScenario))
      ∧ scenarioRowBT.deltaDeltaCt
        = FV.sub scenarioRowBT.deltaCt scenarioRowBT.deltaCtAvgCtrlSample
      ∧ scenarioRowBT.fold = FV.exp2 (FV.neg scenarioRowBT.deltaDeltaCt)
      ∧ scenarioRowBT.foldCI68Lower = FV.exp2
          (FV.sub (FV.neg scenarioRowBT.deltaDeltaCt) scenarioRowBT.deltaCtStd)
      ∧ scenarioRowBT.foldCI68Upper = FV.exp2
          (FV.add (FV.neg scenarioRowBT.deltaDeltaCt)
            scenarioRowBT.deltaCtStd)) :=
  ⟨rfl, rfl, C2_formulas noRegex rulesAllA rulesAllH inputScenario
    scenarioRows "B" "T" scenarioRowBT rfl rfl⟩

theorem dedupPairs_ne_nil {input : List Measurement} (h : input ≠ []) :
    dedupPairs input ≠ [] := by
  cases input with
  | nil => exact absurd rfl h
  | cons m ms => simp [dedupPairs, dedupAcc]

theorem notice_sample_mem (f : String → String → Bool)
    (rs rt : List (String × String)) (input : List Measurement)
    (s t : String) (ht : (s, t) ∈ dedupPairs input)
    (h2 : get_reference_condition f rs s = none) :
    Notice.noRefSample s (defaultSampleOf input) ∈ notices f rs rt input := by
  rw [notices, List.mem_flatMap]
  refine ⟨(s, t), ht, ?_⟩
  simp [h2]

theorem notice_target_mem (f : String → String → Bool)
    (rs rt : List (String × String)) (input : List Measurement)
    (s t : String) (ht : (s, t) ∈ dedupPairs input)
    (h3 : get_reference_condition f rt s = none) :
    Notice.noRefTarget s (defaultTargetOf input) ∈ notices f rs rt input := by
  rw [notices, List.mem_flatMap]
  refine ⟨(s, t), ht, ?_⟩
  simp [h3]

/-- C4: a sample matched by no rule is assigned the `Sample`/`Target` of the
first row of the deduplicated table as reference sample/target, a notice
naming the sample and the chosen default is emitted for it, and the resolver
assigns every distinct sample exactly once (totally, with no failure). -/
theorem C4_fallback (f : String → String → Bool)
    (rs rt : List (String × String)) (input : List Measurement) (s : String)
    (h0 : input ≠ []) (h1 : s ∈ distinctSamples input)
    (h2 : get_reference_condition f rs s = none)
    (h3 : get_reference_condition f rt s = none) :
    refSampleOf f rs input s = defaultSampleOf input
    ∧ refTargetOf f rt input s = defaultTargetOf input
    ∧ Notice.noRefSample s (defaultSampleOf input) ∈ notices f rs rt input
    ∧ Notice.noRefTarget s (defaultTargetOf input) ∈ notices f rs rt input
    ∧ (refAssignments f rs rt input).map (fun a => a.1)
      = distinctSamples input
    ∧ (distinctSamples input).Nodup := by
  obtain ⟨t, ht⟩ := (mem_distinctSamples input s).mp h1
  refine ⟨by rw [refSampleOf, h2]; rfl, by rw [refTargetOf, h3]; rfl,
    notice_sample_mem f rs rt input s t ht h2,
    notice_target_mem f rs rt input s t ht h3, ?_,
    nodup_distinctSamples input⟩
  rw [refAssignments, List.map_map,
    show ((fun (a : String × String × String) => a.1)
      ∘ fun s => (s, refSampleOf f rs input s, refTargetOf f rt input s))
      = id from funext fun _ => rfl,
    List.map_id]

def inputSingle : List Measurement := [⟨"A", "T", 1⟩]

theorem C4_fallback_witness :
    (inputSingle ≠ [] ∧ "A" ∈ distinctSamples inputSingle
      ∧ get_reference_condition noRegex [] "A" = none
      ∧ get_reference_condition noRegex [] "A" = none)
    ∧ (refSampleOf noRegex [] inputSingle "A" = defaultSampleOf inputSingle
      ∧ refTargetOf noRegex [] inputSingle "A" = defaultTargetOf inputSingle
      ∧ Notice.noRefSample "A" (defaultSampleOf inputSingle)
        ∈ notices noRegex [] [] inputSingle
      ∧ Notice.noRefTarget "A" (defaultTargetOf inputSingle)
        ∈ notices noRegex [] [] inputSingle
      ∧ (refAssignments noRegex [] [] inputSingle).map (fun a => a.1)
        = distinctSamples inputSingle
      ∧ (distinctSamples inputSingle).Nodup) :=
  ⟨⟨by decide, by decide, rfl, rfl⟩,
   C4_fallback noRegex [] [] inputSingle "A" (by decide) (by decide) rfl rfl⟩

/-- C5: if some row's step-2 lookup `(sample, referenceTarget(sample))` refers
to a combination absent from the table, the run returns a `missingGroup` error
naming an absent key (not an empty/zero statistic), and no table is produced. -/
theorem C5_missing_ctrl_group (f : String → String → Bool)
    (rs rt : List (String × String)) (input : List Measurement)
    (p : String × String) (hp : p ∈ dedupPairs input)
    (hmiss : getGroup input p.1 (refTargetOf f rt input p.1) = []) :
    ∃ s t, foldch f rs rt input = .error (.missingGroup s t)
      ∧ getGroup input s t = []
      ∧ t = refTargetOf f rt input s := by
  obtain ⟨s, heq, hempty⟩ := foldch_ctrl_missing f rs rt input ⟨p, hp, hmiss⟩
  exact ⟨s, refTargetOf f rt input s, heq, hempty, rfl⟩

theorem C5_missing_ctrl_group_witness :
    (("A", "T") ∈ dedupPairs inputSingle
      ∧ getGroup inputSingle "A"
          (refTargetOf noRegex rulesAllH inputSingle "A") = [])
    ∧ (∃ s t, foldch noRegex [] rulesAllH inputSingle
          = .error (.missingGroup s t)
        ∧ getGroup inputSingle s t = []
        ∧ t = refTargetOf noRegex rulesAllH inputSingle s) :=
  ⟨⟨by decide, by decide⟩,
   C5_missing_ctrl_group noRegex [] rulesAllH inputSingle ("A", "T")
     (by decide) (by decide)⟩

/-- C10: when every step-2 control group exists but some row's resolved
reference sample has no row for that row's target (step 5), the run returns a
`missingGroup` error naming that `(referenceSample(sample), target)` key — a
failure mode additional to the step-1/step-2 lookups. -/
theorem C10_missing_ref_sample_row (f : String → String → Bool)
    (rs rt : List (String × String)) (input : List Measurement)
    (p0 : String × String) (hp : p0 ∈ dedupPairs input)
    (hc : ∀ p ∈ dedupPairs input,
      getGroup input p.1 (refTargetOf f rt input p.1) ≠ [])
    (hmiss : (refSampleOf f rs input p0.1, p0.2) ∉ dedupPairs input) :
    ∃ p ∈ dedupPairs input,
      foldch f rs rt input
          = .error (.missingGroup (refSampleOf f rs input p.1) p.2)
        ∧ (refSampleOf f rs input p.1, p.2) ∉ dedupPairs input :=
  foldch_dcacs_missing f rs rt input hc ⟨p0, hp, hmiss⟩

def inputNoRefRow : List Measurement :=
  [⟨"A", "T", 1⟩, ⟨"A", "H", 1⟩, ⟨"B", "H", 1⟩]

def rulesAllB : List (String × String) := [("all", "B")]

theorem C10_missing_ref_sample_row_witness :
    (("A", "T") ∈ dedupPairs inputNoRefRow
      ∧ (∀ p ∈ dedupPairs inputNoRefRow, getGroup inputNoRefRow p.1
          (refTargetOf noRegex rulesAllH inputNoRefRow p.1) ≠ [])
      ∧ (refSampleOf noRegex rulesAllB inputNoRefRow "A", "T")
          ∉ dedupPairs inputNoRefRow)
    ∧ (∃ p ∈ dedupPairs inputNoRefRow,
        foldch noRegex rulesAllB rulesAllH inputNoRefRow
            = .error (.missingGroup
              (refSampleOf noRegex rulesAllB inputNoRefRow p.1) p.2)
          ∧ (refSampleOf noRegex rulesAllB inputNoRefRow p.1, p.2)
            ∉ dedupPairs inputNoRefRow) :=
  ⟨⟨by decide, by decide, by decide⟩,
   C10_missing_ref_sample_row noRegex rulesAllB rulesAllH inputNoRefRow
     ("A", "T") (by decide) (by decide) (by decide)⟩

theorem mkRow_nan_CI (refS refT : String → String) (p : String × String)
    (a b c d e g : FV) (hbd : b = FV.nan ∨ d = FV.nan) :
    (mkRow refS refT p a b c d e g).deltaCtStd = FV.nan
    ∧ (mkRow refS refT p a b c d e g).foldCI68Lower = FV.nan
    ∧ (mkRow refS refT p a b c d e g).foldCI68Upper = FV.nan
    ∧ (mkRow refS refT p a b c d e g).logFoldCI68Lower = FV.nan
    ∧ (mkRow refS refT p a b c d e g).logFoldCI68Upper = FV.nan := by
  have hstd : ((b.mul b).add (d.mul d)).sqrt = FV.nan := by
    rcases hbd with rfl | rfl
    · rw [FV.nan_mul, FV.nan_add]
      rfl
    · rw [FV.mul_nan, FV.add_nan]
      rfl
  refine ⟨hstd, ?_, ?_, ?_, ?_⟩
  · show FV.exp2 (((e.sub g).neg).sub (((b.mul b).add (d.mul d)).sqrt))
      = FV.nan
    rw [hstd, FV.sub_nan]
    rfl
  · show FV.exp2 (((e.sub g).neg).add (((b.mul b).add (d.mul d)).sqrt))
      = FV.nan
    rw [hstd, FV.add_nan]
    rfl
  · show FV.log2 (FV.exp2 (((e.sub g).neg).sub
      (((b.mul b).add (d.mul d)).sqrt))) = FV.nan
    rw [hstd, FV.sub_nan]
    rfl
  · show FV.log2 (FV.exp2 (((e.sub g).neg).add
      (((b.mul b).add (d.mul d)).sqrt))) = FV.nan
    rw [hstd, FV.add_nan]
    rfl

theorem mkRow_fold_val (refS refT : String → String) (p : String × String)
    (a b c d e g : FV) (x y : ℝ) (he : e = FV.val x) (hg : g = FV.val y) :
    (mkRow refS refT p a b c d e g).deltaDeltaCt = FV.val (x - y)
    ∧ (mkRow refS refT p a b c d e g).fold
      = FV.val ((2 : ℝ) ^ (-(x - y))) := by
  subst he hg
  exact ⟨rfl, rfl⟩

/-- C6: a group with exactly one measurement has standard deviation NaN, and
this NaN propagates through `Delta Ct Std` into every confidence-interval
column (and their log2 versions) of the affected row — it is not coerced to 0
and raises no error (the run still succeeds) — while the group mean,
`Delta Delta Ct` and `Fold` of the row remain ordinary numbers. -/
theorem C6_nan_propagation (f : String → String → Bool)
    (rs rt : List (String × String)) (input : List Measurement)
    (rows : List FoldRow) (s t : String) (r : FoldRow)
    (hok : foldch f rs rt input = .ok rows)
    (hr : rows.find? (fun row => decide (row.sample = s)
      && decide (row.target = t)) = some r)
    (hone : (getGroup input s t).length = 1
      ∨ (getGroup input s (refTargetOf f rt input s)).length = 1) :
    r.ctAvg = FV.val ((meanQ (getGroup input s t) : ℚ) : ℝ)
    ∧ ((getGroup input s t).length = 1 → r.ctStd = FV.nan)
    ∧ ((getGroup input s (refTargetOf f rt input s)).length = 1
        → r.ctStdCtrl = FV.nan)
    ∧ r.deltaCtStd = FV.nan
    ∧ r.foldCI68Lower = FV.nan
    ∧ r.foldCI68Upper = FV.nan
    ∧ r.logFoldCI68Lower = FV.nan
    ∧ r.logFoldCI68Upper = FV.nan
    ∧ ∃ x, r.deltaDeltaCt = FV.val x
      ∧ r.fold = FV.val ((2 : ℝ) ^ (-x)) := by
  obtain ⟨hne, hc, hd, hrows⟩ := (foldch_ok_iff f rs rt input rows).mp hok
  obtain ⟨hmem, hrw⟩ := find_kept_row hok hr
  subst hrw
  have hstd1 : ∀ xs : List ℚ, xs.length = 1 → stdFV xs = FV.nan := by
    intro xs hxs
    rw [stdFV, if_pos (by omega)]
  have hbd : ctStdF input (s, t) = FV.nan
      ∨ ctrlStdF f rt input (s, t) = FV.nan := by
    rcases hone with h | h
    · exact Or.inl (hstd1 _ h)
    · exact Or.inr (hstd1 _ h)
  have hCI := mkRow_nan_CI (refSampleOf f rs input) (refTargetOf f rt input)
    (s, t) (ctAvgF input (s, t)) (ctStdF input (s, t))
    (ctrlAvgF f rt input (s, t)) (ctrlStdF f rt input (s, t))
    (deltaCtF f rt input (s, t)) (dcacsF f rs rt input (s, t)) hbd
  have hkey : (refSampleOf f rs input s, t) ∈ dedupPairs input :=
    hd (s, t) hmem
  have hlne : (dedupPairs input).filter
      (fun q => decide (q = (refSampleOf f rs input s, t))) ≠ [] :=
    fun hnil => (filter_key_eq_nil_iff _ _).mp hnil hkey
  obtain ⟨y, hy⟩ := FVmean_vals ((dedupPairs input).filter
      (fun q => decide (q = (refSampleOf f rs input s, t))))
    (fun q => ((meanQ (getGroup input q.1 q.2) : ℚ) : ℝ)
      - ((meanQ (getGroup input q.1 (refTargetOf f rt input q.1)) : ℚ) : ℝ))
    hlne
  have hdc : dcacsF f rs rt input (s, t) = FV.val y := hy
  have hfold := mkRow_fold_val (refSampleOf f rs input)
    (refTargetOf f rt input) (s, t) (ctAvgF input (s, t))
    (ctStdF input (s, t)) (ctrlAvgF f rt input (s, t))
    (ctrlStdF f rt input (s, t)) (deltaCtF f rt input (s, t))
    (dcacsF f rs rt input (s, t))
    (((meanQ (getGroup input s t) : ℚ) : ℝ)
      - ((meanQ (getGroup input s (refTargetOf f rt input s)) : ℚ) : ℝ))
    y rfl hdc
  exact ⟨rfl, fun h => hstd1 _ h, fun h => hstd1 _ h, hCI.1, hCI.2.1,
    hCI.2.2.1, hCI.2.2.2.1, hCI.2.2.2.2, _, hfold.1, hfold.2⟩

/-- C6 witness fixture: group `(B, T)` has a single replicate. -/
def inputNaN : List Measurement :=
  [⟨"A", "T", 20⟩, ⟨"A", "T", 21⟩, ⟨"A", "H", 25⟩, ⟨"A", "H", 25⟩,
   ⟨"B", "T", 22⟩, ⟨"B", "H", 25⟩, ⟨"B", "H", 26⟩]

noncomputable def nanRows : List FoldRow :=
  (foldch noRegex rulesAllA rulesAllH inputNaN).toOption.getD []

noncomputable def nanRowBT : FoldRow :=
  (nanRows.find? (fun row => decide (row.sample = "B")
    && decide (row.target = "T"))).getD
      (rowFun noRegex rulesAllA rulesAllH inputNaN ("B", "T"))

theorem C6_nan_propagation_witness :
    (foldch noRegex rulesAllA rulesAllH inputNaN = .ok nanRows
      ∧ nanRows.find? (fun row => decide (row.sample = "B")
          && decide (row.target = "T")) = some nanRowBT
      ∧ (getGroup inputNaN "B" "T").length = 1)
    ∧ (nanRowBT.ctAvg = FV.val ((meanQ (getGroup inputNaN "B" "T") : ℚ) : ℝ)
      ∧ ((getGroup inputNaN "B" "T").length = 1 → nanRowBT.ctStd = FV.nan)
      ∧ ((getGroup inputNaN "B"
            (refTargetOf noRegex rulesAllH inputNaN "B")).length = 1
          → nanRowBT.ctStdCtrl = FV.nan)
      ∧ nanRowBT.deltaCtStd = FV.nan
      ∧ nanRowBT.foldCI68Lower = FV.nan
      ∧ nanRowBT.foldCI68Upper = FV.nan
      ∧ nanRowBT.logFoldCI68Lower = FV.nan
      ∧ nanRowBT.logFoldCI68Upper = FV.nan
      ∧ ∃ x, nanRowBT.deltaDeltaCt = FV.val x
        ∧ nanRowBT.fold = FV.val ((2 : ℝ) ^ (-x))) :=
  ⟨⟨rfl, rfl, by decide⟩,
   C6_nan_propagation noRegex rulesAllA rulesAllH inputNaN nanRows "B" "T"
     nanRowBT rfl rfl (Or.inl (by decide))⟩

/-- C7: for every row of a successful run, `fold = 2^logFold` and
`foldCI68Lower/Upper = 2^logFoldCI68Lower/Upper` hold exactly as cell values —
the log2 transform round-trips, NaN rows included (NaN maps to NaN). -/
theorem C7_log_roundtrip (f : String → String → Bool)
    (rs rt : List (String × String)) (input : List Measurement)
    (rows : List FoldRow) (r : FoldRow)
    (hok : foldch f rs rt input = .ok rows) (hr : r ∈ rows) :
    r.fold = FV.exp2 r.logFold
    ∧ r.foldCI68Lower = FV.exp2 r.logFoldCI68Lower
    ∧ r.foldCI68Upper = FV.exp2 r.logFoldCI68Upper := by
  obtain ⟨p, hp, hrw⟩ := mem_rows_rowFun hok hr
  subst hrw
  exact ⟨(FV.exp2_log2_exp2 _).symm, (FV.exp2_log2_exp2 _).symm,
    (FV.exp2_log2_exp2 _).symm⟩

noncomputable def nanRowHead : FoldRow :=
  nanRows.headD (rowFun noRegex rulesAllA rulesAllH inputNaN ("B", "T"))

theorem C7_log_roundtrip_witness :
    (foldch noRegex rulesAllA rulesAllH inputNaN = .ok nanRows
      ∧ nanRowHead ∈ nanRows)
    ∧ (nanRowHead.fold = FV.exp2 nanRowHead.logFold
      ∧ nanRowHead.foldCI68Lower = FV.exp2 nanRowHead.logFoldCI68Lower
      ∧ nanRowHead.foldCI68Upper = FV.exp2 nanRowHead.logFoldCI68Upper) :=
  ⟨⟨rfl, List.Mem.head _⟩,
   C7_log_roundtrip noRegex rulesAllA rulesAllH inputNaN nanRows nanRowHead
     rfl (List.Mem.head _)⟩

/-- C8: for two sources with disjoint sample sets, the `output` strategy (full
pipeline per source, results concatenated) produces exactly the rows of
running each file alone under the `input` strategy, concatenated per file. -/
theorem C8_output_strategy (f : String → String → Bool)
    (rs rt : List (String × String)) (f1 f2 : List Measurement)
    (r1 r2 : List FoldRow)
    (hdisj : ∀ s ∈ distinctSamples f1, s ∉ distinctSamples f2)
    (h1 : foldch f rs rt f1 = .ok r1) (h2 : foldch f rs rt f2 = .ok r2) :
    runAggregate f rs rt "output" [f1, f2] = .ok (r1 ++ r2)
    ∧ runAggregate f rs rt "input" [f1] = .ok r1
    ∧ runAggregate f rs rt "input" [f2] = .ok r2 := by
  refine ⟨?_, ?_, ?_⟩
  · rw [runAggregate, if_neg (by decide), if_pos rfl,
      show mapME (foldch f rs rt) [f1, f2] = .ok [r1, r2] from by
        rw [mapME, h1, mapME, h2, mapME]]
    simp [Except.map]
  · rw [runAggregate, if_pos rfl,
      show ([f1] : List (List Measurement)).flatten = f1 from by simp]
    exact h1
  · rw [runAggregate, if_pos rfl,
      show ([f2] : List (List Measurement)).flatten = f2 from by simp]
    exact h2

def fileOne : List Measurement := [⟨"A", "T", 1⟩]

def fileTwo : List Measurement := [⟨"B", "U", 1⟩]

theorem C8_output_strategy_witness :
    ((∀ s ∈ distinctSamples fileOne, s ∉ distinctSamples fileTwo)
      ∧ foldch noRegex [] [] fileOne = .ok []
      ∧ foldch noRegex [] [] fileTwo = .ok [])
    ∧ (runAggregate noRegex [] [] "output" [fileOne, fileTwo]
        = .ok ([] ++ [])
      ∧ runAggregate noRegex [] [] "input" [fileOne] = .ok []
      ∧ runAggregate noRegex [] [] "input" [fileTwo] = .ok []) :=
  ⟨⟨by decide, rfl, rfl⟩,
   C8_output_strategy noRegex [] [] fileOne fileTwo [] [] (by decide)
     rfl rfl⟩

/-- C9 counterexample fixture. -/
def inputTwoRepl : List Measurement := [⟨"A", "T", 1⟩, ⟨"A", "T", 2⟩]

/-- C9 (as stated) is false: with both rule lists empty the run does not fail
with a configuration error — `foldch` succeeds, the fallback default is
applied to the (only) sample, and the fallback notices are emitted. -/
theorem C9_counterexample :
    foldch noRegex [] [] inputTwoRepl = .ok []
    ∧ notices noRegex [] [] inputTwoRepl
      = [.noRefSample "A" "A", .noRefTarget "A" "T"]
    ∧ refSampleOf noRegex [] inputTwoRepl "A" = "A"
    ∧ refTargetOf noRegex [] inputTwoRepl "A" = "T"
    ∧ runAggregate noRegex [] [] "input" [inputTwoRepl] = .ok [] :=
  ⟨rfl, by decide, rfl, rfl, rfl⟩

/-- C9 amended: empty rule lists are not a configuration error — the run
proceeds, assigning every distinct sample the fallback default reference
sample/target with a notice for each; any error such a run raises is a
`missingGroup` error; the only configuration rejected before computation is
an unrecognized aggregation strategy. -/
theorem C9_empty_rules (f : String → String → Bool)
    (rs rt : List (String × String)) (input : List Measurement)
    (h0 : input ≠ []) :
    (∀ s ∈ distinctSamples input,
      refSampleOf f [] input s = defaultSampleOf input
      ∧ refTargetOf f [] input s = defaultTargetOf input
      ∧ Notice.noRefSample s (defaultSampleOf input)
        ∈ notices f [] [] input
      ∧ Notice.noRefTarget s (defaultTargetOf input)
        ∈ notices f [] [] input)
    ∧ (∀ e, foldch f [] [] input = .error e
        → ∃ s t, e = .missingGroup s t)
    ∧ (∀ (strategy : String) (files : List (List Measurement)),
        strategy ≠ "input" → strategy ≠ "output" →
        runAggregate f rs rt strategy files
          = .error (.invalidStrategy strategy)) := by
  refine ⟨?_, ?_, ?_⟩
  · intro s hs
    obtain ⟨t, ht⟩ := (mem_distinctSamples input s).mp hs
    exact ⟨rfl, rfl, notice_sample_mem f [] [] input s t ht rfl,
      notice_target_mem f [] [] input s t ht rfl⟩
  · intro e herr
    exact foldch_error_shape f [] [] input e (dedupPairs_ne_nil h0) herr
  · intro st files hni hno
    rw [runAggregate, if_neg hni, if_neg hno]

theorem C9_empty_rules_witness :
    inputTwoRepl ≠ []
    ∧ ((∀ s ∈ distinctSamples inputTwoRepl,
        refSampleOf noRegex [] inputTwoRepl s = defaultSampleOf inputTwoRepl
        ∧ refTargetOf noRegex [] inputTwoRepl s
          = defaultTargetOf inputTwoRepl
        ∧ Notice.noRefSample s (defaultSampleOf inputTwoRepl)
          ∈ notices noRegex [] [] inputTwoRepl
        ∧ Notice.noRefTarget s (defaultTargetOf inputTwoRepl)
          ∈ notices noRegex [] [] inputTwoRepl)
      ∧ (∀ e, foldch noRegex [] [] inputTwoRepl = .error e
          → ∃ s t, e = .missingGroup s t)
      ∧ (∀ (strategy : String) (files : List (List Measurement)),
          strategy ≠ "input" → strategy ≠ "output" →
          runAggregate noRegex [] [] strategy files
            = .error (.invalidStrategy strategy))) :=
  ⟨by decide, C9_empty_rules noRegex [] [] inputTwoRepl (by decide)⟩
